import Mathlib

/-!
Verification development for a NetFlow v5 collector (`main.go`).

The collector parses UDP datagrams containing a fixed big-endian header
followed by fixed-size flow records, enriches each record (IPv4 strings,
duration, sampling decode, cached reverse-DNS hostnames) and renders
records either as JSON or as InfluxDB line protocol.

Bytes are modelled as `List Nat` (each entry < 256), machine integers as
`Nat` with explicit `% 2^w` where overflow matters, the wall clock as a
`Nat` (nanoseconds), the external reverse-DNS resolver as an abstract
function `String → Option (List String)` (`none` = resolution error,
matching a non-nil `error` from `net.LookupAddr`; `some names` = success).
-/

/-- The packet header (`type header struct` in `main.go`): nine fields read
by `binary.Read` in big-endian order, 24 bytes on the wire. -/
structure header where
  Version : Nat
  FlowRecords : Nat
  Uptime : Nat
  UnixSec : Nat
  UnixNsec : Nat
  FlowSeqNum : Nat
  EngineType : Nat
  EngineID : Nat
  SamplingInterval : Nat
deriving Repr, DecidableEq

/-- Well-formedness: every field fits its machine width (uint16 / uint32 /
uint8).  Values produced by parsing a datagram always satisfy this. -/
def header.wf (h : header) : Prop :=
  h.Version < 65536 ∧ h.FlowRecords < 65536 ∧ h.Uptime < 4294967296 ∧
  h.UnixSec < 4294967296 ∧ h.UnixNsec < 4294967296 ∧ h.FlowSeqNum < 4294967296 ∧
  h.EngineType < 256 ∧ h.EngineID < 256 ∧ h.SamplingInterval < 65536

instance (h : header) : Decidable h.wf := by
  unfold header.wf; infer_instance

/-- A raw flow record (`type binaryRecord struct` in `main.go`): 48 bytes on
the wire.  The two blank (`_`) padding fields of the Go struct are consumed
during parsing but carry no data, so they are not fields here. -/
structure binaryRecord where
  Ipv4SrcAddrInt : Nat
  Ipv4DstAddrInt : Nat
  Ipv4NextHopInt : Nat
  InputSnmp : Nat
  OutputSnmp : Nat
  InPkts : Nat
  InBytes : Nat
  FirstInt : Nat
  LastInt : Nat
  L4SrcPort : Nat
  L4DstPort : Nat
  TCPFlags : Nat
  Protocol : Nat
  SrcTos : Nat
  SrcAs : Nat
  DstAs : Nat
  SrcMask : Nat
  DstMask : Nat
deriving Repr, DecidableEq

/-- Well-formedness: every field fits its machine width. -/
def binaryRecord.wf (r : binaryRecord) : Prop :=
  r.Ipv4SrcAddrInt < 4294967296 ∧ r.Ipv4DstAddrInt < 4294967296 ∧
  r.Ipv4NextHopInt < 4294967296 ∧ r.InputSnmp < 65536 ∧ r.OutputSnmp < 65536 ∧
  r.InPkts < 4294967296 ∧ r.InBytes < 4294967296 ∧ r.FirstInt < 4294967296 ∧
  r.LastInt < 4294967296 ∧ r.L4SrcPort < 65536 ∧ r.L4DstPort < 65536 ∧
  r.TCPFlags < 256 ∧ r.Protocol < 256 ∧ r.SrcTos < 256 ∧
  r.SrcAs < 65536 ∧ r.DstAs < 65536 ∧ r.SrcMask < 256 ∧ r.DstMask < 256

instance (r : binaryRecord) : Decidable r.wf := by
  unfold binaryRecord.wf; infer_instance

/-- A decoded record (`type decodedRecord struct`): the header and the raw
record (the Go source embeds them structurally; here they are explicit
fields `hdr` and `bin`) plus the derived fields.  Go field promotion means
`decodedRecord.SamplingInterval` is the embedded header's field, so the
sampling-interval overwrite in `decodeRecord` lands inside `hdr`. -/
structure decodedRecord where
  hdr : header
  bin : binaryRecord
  Host : String
  SamplingAlgorithm : Nat
  Ipv4SrcAddr : String
  Ipv4DstAddr : String
  Ipv4NextHop : String
  SrcHostName : String
  DstHostName : String
  Duration : Nat
deriving Repr, DecidableEq

/-- `intToIPv4Addr` (`main.go:66-72`) followed by `net.IP.String()`:
`net.IPv4(byte(a>>24), byte(a>>16), byte(a>>8), byte(a))` rendered in
dotted decimal.  `byte(x)` truncates to the low 8 bits. -/
def intToIPv4Addr (intAddr : Nat) : String :=
  toString ((intAddr >>> 24) % 256) ++ "." ++
  toString ((intAddr >>> 16) % 256) ++ "." ++
  toString ((intAddr >>> 8) % 256) ++ "." ++
  toString (intAddr % 256)

/-- The 32-bit duration computation of `main.go:87` before the `uint16`
cast: `(binRecord.LastInt - binRecord.FirstInt) / 1000` where the
subtraction is wrapping uint32 arithmetic and the division truncates. -/
def duration32 (r : binaryRecord) : Nat :=
  ((r.LastInt + 4294967296 - r.FirstInt) % 4294967296) / 1000

/-- `decodeRecord` (`main.go:74-99`).  The reverse-DNS lookup
(`lookUpWithCache`) is abstracted as the function `lookup`, which maps an
IP string to the hostname the cache returns at this moment; the `host`
argument is `remoteAddr.IP.String()`.  `Duration` is
`uint16((LastInt-FirstInt)/1000)`, hence the `% 65536`; the sampling
overwrite `decodedRecord.SamplingInterval = 0x3fff & ...` targets the
embedded header field. -/
def decodeRecord (lookup : String → String) (h : header) (binRecord : binaryRecord)
    (host : String) : decodedRecord :=
  let srcAddr := intToIPv4Addr binRecord.Ipv4SrcAddrInt
  let dstAddr := intToIPv4Addr binRecord.Ipv4DstAddrInt
  { hdr := { h with SamplingInterval := 0x3fff &&& h.SamplingInterval }
    bin := binRecord
    Host := host
    SamplingAlgorithm := (0x3 &&& (h.SamplingInterval >>> 14)) % 256
    Ipv4SrcAddr := srcAddr
    Ipv4DstAddr := dstAddr
    Ipv4NextHop := intToIPv4Addr binRecord.Ipv4NextHopInt
    SrcHostName := lookup srcAddr
    DstHostName := lookup dstAddr
    Duration := duration32 binRecord % 65536 }

/-! ## Byte-level parsing (`binary.Read` with `binary.BigEndian`) -/

/-- Read one byte. -/
def readU8 : List Nat → Option (Nat × List Nat)
  | b :: rest => some (b, rest)
  | [] => none

/-- Read a big-endian uint16. -/
def readU16 : List Nat → Option (Nat × List Nat)
  | b1 :: b0 :: rest => some (b1 * 256 + b0, rest)
  | _ => none

/-- Read a big-endian uint32. -/
def readU32 : List Nat → Option (Nat × List Nat)
  | b3 :: b2 :: b1 :: b0 :: rest =>
      some (((b3 * 256 + b2) * 256 + b1) * 256 + b0, rest)
  | _ => none

/-- `binary.Read(buf, binary.BigEndian, &header)` (`main.go:179`): the nine
header fields in declaration order; fails when fewer than 24 bytes remain. -/
def parseHeader (b : List Nat) : Option (header × List Nat) := do
  let (version, b) ← readU16 b
  let (flowRecords, b) ← readU16 b
  let (uptime, b) ← readU32 b
  let (unixSec, b) ← readU32 b
  let (unixNsec, b) ← readU32 b
  let (flowSeqNum, b) ← readU32 b
  let (engineType, b) ← readU8 b
  let (engineID, b) ← readU8 b
  let (samplingInterval, b) ← readU16 b
  pure ({ Version := version, FlowRecords := flowRecords, Uptime := uptime,
          UnixSec := unixSec, UnixNsec := unixNsec, FlowSeqNum := flowSeqNum,
          EngineType := engineType, EngineID := engineID,
          SamplingInterval := samplingInterval }, b)

/-- Big-endian value of two bytes. -/
def beU16 (b1 b0 : Nat) : Nat := b1 * 256 + b0

/-- Big-endian value of four bytes. -/
def beU32 (b3 b2 b1 b0 : Nat) : Nat := ((b3 * 256 + b2) * 256 + b1) * 256 + b0

/-- `binary.Read(buf, binary.BigEndian, &record)` (`main.go:186`): the
`binaryRecord` fields in declaration order, 48 bytes big-endian.  The blank
`_ uint8` after the ports (byte 36) and the blank `_ uint16` at the end
(bytes 46-47) are consumed and discarded, keeping record boundaries
aligned; fails when fewer than 48 bytes remain. -/
def parseBinaryRecord : List Nat → Option (binaryRecord × List Nat)
  | s3 :: s2 :: s1 :: s0 :: d3 :: d2 :: d1 :: d0 :: n3 :: n2 :: n1 :: n0 ::
    i1 :: i0 :: o1 :: o0 :: k3 :: k2 :: k1 :: k0 :: y3 :: y2 :: y1 :: y0 ::
    f3 :: f2 :: f1 :: f0 :: l3 :: l2 :: l1 :: l0 :: u1 :: u0 :: v1 :: v0 ::
    _pad1 :: tf :: pr :: tos :: a1 :: a0 :: c1 :: c0 :: sm :: dm :: _pb1 :: _pb0 :: rest =>
      some ({ Ipv4SrcAddrInt := beU32 s3 s2 s1 s0, Ipv4DstAddrInt := beU32 d3 d2 d1 d0,
              Ipv4NextHopInt := beU32 n3 n2 n1 n0, InputSnmp := beU16 i1 i0,
              OutputSnmp := beU16 o1 o0, InPkts := beU32 k3 k2 k1 k0,
              InBytes := beU32 y3 y2 y1 y0, FirstInt := beU32 f3 f2 f1 f0,
              LastInt := beU32 l3 l2 l1 l0, L4SrcPort := beU16 u1 u0,
              L4DstPort := beU16 v1 v0, TCPFlags := tf, Protocol := pr,
              SrcTos := tos, SrcAs := beU16 a1 a0, DstAs := beU16 c1 c0,
              SrcMask := sm, DstMask := dm }, rest)
  | _ => none

/-- The record loop of `handlePacket` (`main.go:184-194`): up to `n`
records are read sequentially; a failed `binary.Read` breaks the loop, so
records already decoded stay emitted and the rest is discarded. -/
def recordLoop (lookup : String → String) (h : header) (host : String) :
    Nat → List Nat → List decodedRecord
  | 0, _ => []
  | Nat.succ n, b =>
    match parseBinaryRecord b with
    | none => []
    | some (r, rest) => decodeRecord lookup h r host :: recordLoop lookup h host n rest

/-- `handlePacket` (`main.go:177-196`): parse the header (on failure the
datagram is dropped), then read `header.FlowRecords` records.  The returned
list is the sequence of records pushed onto the output channel, in order. -/
def handlePacket (lookup : String → String) (host : String) (b : List Nat) :
    List decodedRecord :=
  match parseHeader b with
  | none => []
  | some (h, rest) => recordLoop lookup h host h.FlowRecords rest

/-! ## Byte-level encoding (the documented wire layout, used to state
round-trip properties) -/

/-- Big-endian encoding of a uint8. -/
def encodeU8 (n : Nat) : List Nat := [n % 256]

/-- Big-endian encoding of a uint16. -/
def encodeU16 (n : Nat) : List Nat := [n / 256 % 256, n % 256]

/-- Big-endian encoding of a uint32. -/
def encodeU32 (n : Nat) : List Nat :=
  [n / 16777216 % 256, n / 65536 % 256, n / 256 % 256, n % 256]

/-- Encode a header into its 24-byte big-endian wire form (the inverse of
`parseHeader`). -/
def encodeHeader (h : header) : List Nat :=
  encodeU16 h.Version ++ encodeU16 h.FlowRecords ++ encodeU32 h.Uptime ++
  encodeU32 h.UnixSec ++ encodeU32 h.UnixNsec ++ encodeU32 h.FlowSeqNum ++
  encodeU8 h.EngineType ++ encodeU8 h.EngineID ++ encodeU16 h.SamplingInterval

/-- Encode a raw record into its 48-byte big-endian wire form, padding
bytes included as zeros (the inverse of `parseBinaryRecord`). -/
def encodeBinaryRecord (r : binaryRecord) : List Nat :=
  encodeU32 r.Ipv4SrcAddrInt ++ encodeU32 r.Ipv4DstAddrInt ++
  encodeU32 r.Ipv4NextHopInt ++ encodeU16 r.InputSnmp ++
  encodeU16 r.OutputSnmp ++ encodeU32 r.InPkts ++ encodeU32 r.InBytes ++
  encodeU32 r.FirstInt ++ encodeU32 r.LastInt ++ encodeU16 r.L4SrcPort ++
  encodeU16 r.L4DstPort ++ encodeU8 0 ++ encodeU8 r.TCPFlags ++
  encodeU8 r.Protocol ++ encodeU8 r.SrcTos ++ encodeU16 r.SrcAs ++
  encodeU16 r.DstAs ++ encodeU8 r.SrcMask ++ encodeU8 r.DstMask ++
  encodeU16 0

/-! ## The DNS cache (`lookUpWithCache`, `main.go:110-137`) -/

/-- `type cacheRecord struct`: hostname plus absolute expiry instant
(nanoseconds). The Go zero value is `{ hostname := "", timeout := 0 }`. -/
structure cacheRecord where
  Hostname : String
  timeout : Nat
deriving Repr, DecidableEq

/-- The `cache` map: Go map lookup of a missing key yields the zero value,
modelled by `Option.getD` at the use site. -/
def cacheInsert (c : String → Option cacheRecord) (k : String) (v : cacheRecord) :
    String → Option cacheRecord :=
  fun s => if s = k then some v else c s

/-- `time.Now().AddDate(0,0,1)`: one day ahead, in nanoseconds. -/
def nsPerDay : Nat := 86400000000000

/-- `lookUpWithCache` (`main.go:120-137`).  `resolve` models
`net.LookupAddr`, `now` the current instant.  The result is the returned
hostname, the cache after the call, and whether an external resolution was
performed; `none` models the panic when a successful resolution returns an
empty name list and `hostTemp[0]` indexes out of range. -/
def lookUpWithCache (resolve : String → Option (List String)) (now : Nat)
    (cache : String → Option cacheRecord) (ipAddr : String) :
    Option (String × (String → Option cacheRecord) × Bool) :=
  let hostnameFromCache := (cache ipAddr).getD { Hostname := "", timeout := 0 }
  if hostnameFromCache = { Hostname := "", timeout := 0 } ∨ now > hostnameFromCache.timeout then
    match resolve ipAddr with
    | some hostTemp =>
      match hostTemp with
      | [] => none
      | hd :: _ =>
        some (hd, cacheInsert cache ipAddr { Hostname := hd, timeout := now + nsPerDay }, true)
    | none =>
      some (ipAddr, cacheInsert cache ipAddr { Hostname := ipAddr, timeout := now + nsPerDay }, true)
  else
    some (hostnameFromCache.Hostname, cache, false)

/-! ## Line-protocol rendering (`formatLineProtocol`, `main.go:139-144`) -/

/-- `formatLineProtocol`: the `fmt.Sprintf` of `main.go:140-143`.  The
trailing timestamp is `uint64(uint64(UnixSec)*uint64(1000000000) +
uint64(UnixNsec))`, i.e. computed modulo `2^64`. -/
def formatLineProtocol (record : decodedRecord) : String :=
  "netflow,host=" ++ record.Host ++
  ",srcAddr=" ++ record.Ipv4SrcAddr ++
  ",dstAddr=" ++ record.Ipv4DstAddr ++
  ",srcHostName=" ++ record.SrcHostName ++
  ",dstHostName=" ++ record.DstHostName ++
  ",protocol=" ++ toString record.bin.Protocol ++
  ",srcPort=" ++ toString record.bin.L4SrcPort ++
  ",dstPort=" ++ toString record.bin.L4DstPort ++
  ",input=" ++ toString record.bin.InputSnmp ++
  ",output=" ++ toString record.bin.OutputSnmp ++
  " inBytes=" ++ toString record.bin.InBytes ++
  ",inPackets=" ++ toString record.bin.InPkts ++
  ",duration=" ++ toString record.Duration ++
  " " ++ toString ((record.hdr.UnixSec * 1000000000 + record.hdr.UnixNsec) % 18446744073709551616)

/-! ## Helper lemmas -/

theorem beU16_encodeU16 (n : Nat) (hn : n < 65536) :
    beU16 (n / 256 % 256) (n % 256) = n := by
  unfold beU16; omega

theorem readU16_encodeU16 (n : Nat) (hn : n < 65536) (rest : List Nat) :
    readU16 (encodeU16 n ++ rest) = some (n, rest) := by
  simp [encodeU16, readU16]
  omega

theorem readU32_encodeU32 (n : Nat) (hn : n < 4294967296) (rest : List Nat) :
    readU32 (encodeU32 n ++ rest) = some (n, rest) := by
  simp [encodeU32, readU32]
  omega

theorem readU8_encodeU8 (n : Nat) (hn : n < 256) (rest : List Nat) :
    readU8 (encodeU8 n ++ rest) = some (n, rest) := by
  simp [encodeU8, readU8]
  omega

theorem parseBinaryRecord_short (b : List Nat) (hb : b.length < 48) :
    parseBinaryRecord b = none := by
  unfold parseBinaryRecord
  split
  · simp only [List.length_cons] at hb
    omega
  · rfl

theorem parseBinaryRecord_encode (r : binaryRecord) (hw : r.wf) (rest : List Nat) :
    parseBinaryRecord (encodeBinaryRecord r ++ rest) = some (r, rest) := by
  obtain ⟨w1, w2, w3, w4, w5, w6, w7, w8, w9, w10, w11, w12, w13, w14, w15, w16, w17, w18⟩ := hw
  obtain ⟨x1, x2, x3, x4, x5, x6, x7, x8, x9, x10, x11, x12, x13, x14, x15, x16, x17, x18⟩ := r
  simp only [encodeBinaryRecord, encodeU32, encodeU16, encodeU8, List.cons_append,
    List.nil_append, parseBinaryRecord, beU32, beU16, Option.some.injEq, Prod.mk.injEq,
    binaryRecord.mk.injEq, and_true, true_and] at *
  omega

theorem parseHeader_encode (h : header) (hw : h.wf) (rest : List Nat) :
    parseHeader (encodeHeader h ++ rest) = some (h, rest) := by
  obtain ⟨w1, w2, w3, w4, w5, w6, w7, w8, w9⟩ := hw
  obtain ⟨x1, x2, x3, x4, x5, x6, x7, x8, x9⟩ := h
  simp only [encodeHeader, encodeU32, encodeU16, encodeU8, List.cons_append,
    List.nil_append, parseHeader, readU16, readU32, readU8, Option.bind_eq_bind,
    Option.some_bind, pure, Option.some.injEq, Prod.mk.injEq, header.mk.injEq,
    and_true, true_and] at *
  omega

/-- Unrolling the record loop over a block of well-formed encoded records:
each one is parsed back and decoded, and the loop continues on the tail
with the remaining iteration budget. -/
theorem recordLoop_encode (lookup : String → String) (h : header) (host : String) :
    ∀ (rs : List binaryRecord) (n : Nat) (tail : List Nat), (∀ r ∈ rs, r.wf) →
      recordLoop lookup h host (rs.length + n) (rs.flatMap encodeBinaryRecord ++ tail) =
        rs.map (fun r => decodeRecord lookup h r host) ++ recordLoop lookup h host n tail
  | [], n, tail, _ => by simp
  | r :: rs, n, tail, hwf => by
    have hr : r.wf := hwf r (List.mem_cons_self r rs)
    have hrs : ∀ x ∈ rs, x.wf := fun x hx => hwf x (List.mem_cons_of_mem r hx)
    simp only [List.flatMap_cons, List.length_cons, List.append_assoc, List.map_cons]
    have hlen : rs.length + 1 + n = Nat.succ (rs.length + n) := by omega
    rw [hlen]
    conv_lhs => rw [recordLoop]
    simp only [parseBinaryRecord_encode r hr]
    rw [recordLoop_encode lookup h host rs n tail hrs, List.cons_append]

theorem decodeRecord_bin (lookup : String → String) (h : header) (r : binaryRecord)
    (host : String) : (decodeRecord lookup h r host).bin = r := rfl

/-- The raw-record part of the loop's output does not depend on the parsed
header: the header only feeds the embedded copy and the sampling fields. -/
theorem recordLoop_map_bin (lookup : String → String) (h h' : header) (host : String) :
    ∀ (n : Nat) (b : List Nat),
      (recordLoop lookup h host n b).map decodedRecord.bin =
        (recordLoop lookup h' host n b).map decodedRecord.bin
  | 0, _ => rfl
  | Nat.succ n, b => by
    unfold recordLoop
    cases hp : parseBinaryRecord b with
    | none => rfl
    | some p =>
      obtain ⟨r, rest⟩ := p
      simp only [List.map_cons, decodeRecord_bin]
      rw [recordLoop_map_bin lookup h h' host n rest]

/-- Parsing a datagram whose first two bytes (the version field) are
replaced yields the same outcome up to the `Version` field of the header. -/
theorem parseHeader_version (x y x' y' : Nat) (rest : List Nat) :
    parseHeader (x :: y :: rest) =
      Option.map (fun p => ({ p.1 with Version := beU16 x y }, p.2))
        (parseHeader (x' :: y' :: rest)) := by
  have e : ∀ (a b : Nat), readU16 (a :: b :: rest) = some (a * 256 + b, rest) :=
    fun _ _ => rfl
  simp only [parseHeader, e, Option.bind_eq_bind, Option.some_bind]
  cases h2 : readU16 rest with
  | none => rfl
  | some p2 =>
  obtain ⟨fr, b⟩ := p2
  simp only [Option.some_bind]
  cases h3 : readU32 b with
  | none => rfl
  | some p3 =>
  obtain ⟨uptime, b⟩ := p3
  simp only [Option.some_bind]
  cases h4 : readU32 b with
  | none => rfl
  | some p4 =>
  obtain ⟨unixSec, b⟩ := p4
  simp only [Option.some_bind]
  cases h5 : readU32 b with
  | none => rfl
  | some p5 =>
  obtain ⟨unixNsec, b⟩ := p5
  simp only [Option.some_bind]
  cases h6 : readU32 b with
  | none => rfl
  | some p6 =>
  obtain ⟨seqNum, b⟩ := p6
  simp only [Option.some_bind]
  cases h7 : readU8 b with
  | none => rfl
  | some p7 =>
  obtain ⟨engT, b⟩ := p7
  simp only [Option.some_bind]
  cases h8 : readU8 b with
  | none => rfl
  | some p8 =>
  obtain ⟨engI, b⟩ := p8
  simp only [Option.some_bind]
  cases h9 : readU16 b with
  | none => rfl
  | some p9 =>
  obtain ⟨samp, b⟩ := p9
  simp only [Option.some_bind]
  rfl

theorem shiftRight24_eq_div (n : Nat) : n >>> 24 = n / 16777216 := by
  rw [Nat.shiftRight_eq_div_pow]

theorem shiftRight16_eq_div (n : Nat) : n >>> 16 = n / 65536 := by
  rw [Nat.shiftRight_eq_div_pow]

theorem shiftRight8_eq_div (n : Nat) : n >>> 8 = n / 256 := by
  rw [Nat.shiftRight_eq_div_pow]

/-! ## Sample values used to instantiate the theorems -/

/-- A sample record exercising uptime-counter rollover: `FirstInt` near
`2^32` (0xFFFFFFF0), `LastInt` small (0x10). -/
def wrapSampleRecord : binaryRecord :=
  { Ipv4SrcAddrInt := 167772161, Ipv4DstAddrInt := 167772162, Ipv4NextHopInt := 0,
    InputSnmp := 1, OutputSnmp := 2, InPkts := 10, InBytes := 1000,
    FirstInt := 4294967280, LastInt := 16, L4SrcPort := 80, L4DstPort := 8080,
    TCPFlags := 0, Protocol := 6, SrcTos := 0, SrcAs := 0, DstAs := 0,
    SrcMask := 24, DstMask := 24 }

/-- A sample record whose 32-bit duration quotient (4294967) exceeds the
uint16 range. -/
def maxDurationRecord : binaryRecord :=
  { wrapSampleRecord with FirstInt := 0, LastInt := 4294967295 }

/-- A sample header with the packed sampling field 0xC064. -/
def samplingHeader : header :=
  { Version := 5, FlowRecords := 1, Uptime := 7, UnixSec := 1700000000,
    UnixNsec := 500, FlowSeqNum := 3, EngineType := 1, EngineID := 2,
    SamplingInterval := 49252 }

/-! ## Claim theorems -/

/-- C1: for every well-formed raw flow record the 32-bit derived duration of
`main.go:87` equals ((last − first) mod 2^32) / 1000, the subtraction being
unsigned 32-bit (wrapping when last < first) and the division truncating;
in particular first = 0xFFFFFFF0 and last = 0x00000010 give duration 0,
which is also the value stored in the decoded record. -/
theorem c1_duration_unsigned_wrap (r : binaryRecord) (hw : r.wf) :
    duration32 r = (((r.LastInt : Int) - (r.FirstInt : Int)) % 4294967296).toNat / 1000 ∧
    (r.FirstInt = 0xFFFFFFF0 → r.LastInt = 0x00000010 →
      duration32 r = 0 ∧ ∀ (lookup : String → String) (h : header) (host : String),
        (decodeRecord lookup h r host).Duration = 0) := by
  obtain ⟨-, -, -, -, -, -, -, hf, hl, -⟩ := hw
  constructor
  · unfold duration32
    congr 1
    omega
  · intro h1 h2
    have hd : duration32 r = 0 := by
      unfold duration32
      rw [h1, h2]
    refine ⟨hd, fun lookup h host => ?_⟩
    show duration32 r % 65536 = 0
    rw [hd]

theorem c1_duration_unsigned_wrap_witness :
    wrapSampleRecord.wf ∧ duration32 wrapSampleRecord = 0 :=
  ⟨by decide, ((c1_duration_unsigned_wrap wrapSampleRecord (by decide)).2 rfl rfl).1⟩

/-- C2: decoding the packed 16-bit sampling field sets the decoded record's
sampling algorithm to its top two bits ((raw >> 14) & 0x3, i.e.
raw / 2^14 mod 4) and overwrites the decoded record's sampling-interval
field with the low fourteen bits (raw & 0x3FFF, i.e. raw mod 2^14), so the
packed form (≥ 2^14 whenever the algorithm bits are set) is not retained;
packed 0xC064 gives algorithm 3 and interval 100. -/
theorem c2_sampling_decode (lookup : String → String) (h : header) (r : binaryRecord)
    (host : String) :
    (decodeRecord lookup h r host).SamplingAlgorithm = h.SamplingInterval / 16384 % 4 ∧
    (decodeRecord lookup h r host).hdr.SamplingInterval = h.SamplingInterval % 16384 ∧
    (decodeRecord lookup h r host).hdr.SamplingInterval < 16384 ∧
    (h.SamplingInterval = 0xC064 →
      (decodeRecord lookup h r host).SamplingAlgorithm = 3 ∧
      (decodeRecord lookup h r host).hdr.SamplingInterval = 100) := by
  have halg : (decodeRecord lookup h r host).SamplingAlgorithm =
      (0x3 &&& (h.SamplingInterval >>> 14)) % 256 := rfl
  have hint : (decodeRecord lookup h r host).hdr.SamplingInterval =
      0x3fff &&& h.SamplingInterval := rfl
  have e1 : (0x3 : Nat) &&& (h.SamplingInterval >>> 14) = h.SamplingInterval / 16384 % 4 := by
    rw [Nat.and_comm]
    have := Nat.and_pow_two_sub_one_eq_mod (h.SamplingInterval >>> 14) 2
    norm_num at this
    rw [this, Nat.shiftRight_eq_div_pow]
  have e2 : (0x3fff : Nat) &&& h.SamplingInterval = h.SamplingInterval % 16384 := by
    rw [Nat.and_comm]
    have := Nat.and_pow_two_sub_one_eq_mod h.SamplingInterval 14
    norm_num at this
    rw [this]
  refine ⟨?_, ?_, ?_, ?_⟩
  · rw [halg, e1, Nat.mod_eq_of_lt]
    exact lt_of_lt_of_le (Nat.mod_lt _ (by norm_num)) (by norm_num)
  · rw [hint, e2]
  · rw [hint, e2]
    exact Nat.mod_lt _ (by norm_num)
  · intro hs
    constructor
    · rw [halg, e1, hs]
    · rw [hint, e2, hs]

theorem c2_sampling_decode_witness :
    (decodeRecord (fun s => s) samplingHeader wrapSampleRecord "h").SamplingAlgorithm = 3 ∧
    (decodeRecord (fun s => s) samplingHeader wrapSampleRecord "h").hdr.SamplingInterval = 100 :=
  (c2_sampling_decode (fun s => s) samplingHeader wrapSampleRecord "h").2.2.2 rfl

/-- C6: converting a 32-bit integer address to a dotted-decimal IPv4 string
renders bits 31..24 as the first octet, bits 23..16 as the second,
bits 15..8 as the third and bits 7..0 as the fourth; 0x0A000001 gives
"10.0.0.1". -/
theorem c6_int_to_ipv4 (n : Nat) (hn : n < 4294967296) :
    intToIPv4Addr n =
      toString (n / 16777216) ++ "." ++ toString (n / 65536 % 256) ++ "." ++
      toString (n / 256 % 256) ++ "." ++ toString (n % 256) ∧
    intToIPv4Addr 167772161 = "10.0.0.1" := by
  constructor
  · unfold intToIPv4Addr
    rw [shiftRight24_eq_div, shiftRight16_eq_div, shiftRight8_eq_div,
        Nat.mod_eq_of_lt (by omega : n / 16777216 < 256)]
  · decide

theorem c6_int_to_ipv4_witness : intToIPv4Addr 167772161 = "10.0.0.1" :=
  (c6_int_to_ipv4 167772161 (by norm_num)).2

/-- C9: the decoded record's Duration field is the 32-bit duration quotient
((last − first) mod 2^32) / 1000 further reduced modulo 2^16 by the uint16
cast of `main.go:87`; a flow with first = 0 and last = 0xFFFFFFFF has
quotient 4294967 but stores 35127 = 4294967 mod 65536, silently wrapped. -/
theorem c9_duration_uint16_wrap (lookup : String → String) (h : header) (r : binaryRecord)
    (host : String) (hw : r.wf) :
    (decodeRecord lookup h r host).Duration =
      (((r.LastInt : Int) - (r.FirstInt : Int)) % 4294967296).toNat / 1000 % 65536 ∧
    (r.FirstInt = 0 → r.LastInt = 4294967295 →
      duration32 r = 4294967 ∧ (decodeRecord lookup h r host).Duration = 35127 ∧
      (decodeRecord lookup h r host).Duration ≠ duration32 r) := by
  obtain ⟨-, -, -, -, -, -, -, hf, hl, -⟩ := hw
  constructor
  · show duration32 r % 65536 = _
    congr 1
    unfold duration32
    congr 1
    omega
  · intro h1 h2
    have hd : duration32 r = 4294967 := by
      unfold duration32
      rw [h1, h2]
    have hD : (decodeRecord lookup h r host).Duration = 35127 := by
      show duration32 r % 65536 = 35127
      rw [hd]
    refine ⟨hd, hD, ?_⟩
    rw [hd, hD]
    decide

theorem c9_duration_uint16_wrap_witness :
    maxDurationRecord.wf ∧
    duration32 maxDurationRecord = 4294967 ∧
    (decodeRecord (fun s => s) samplingHeader maxDurationRecord "h").Duration = 35127 :=
  ⟨by decide,
    ((c9_duration_uint16_wrap (fun s => s) samplingHeader maxDurationRecord "h"
      (by decide)).2 rfl rfl).1,
    ((c9_duration_uint16_wrap (fun s => s) samplingHeader maxDurationRecord "h"
      (by decide)).2 rfl rfl).2.1⟩

/-- C3 (as amended: the documented header layout is 24 bytes, not 20):
encoding any well-formed header and list of raw records into the big-endian
wire layout — 24-byte header, then 48-byte records with padding included —
and decoding the datagram emits exactly N decoded records whose embedded
raw-record fields equal the originals field-for-field, in order. -/
theorem c3_roundtrip (lookup : String → String) (host : String) (h : header)
    (rs : List binaryRecord) (hw : h.wf) (hrs : ∀ r ∈ rs, r.wf)
    (hn : h.FlowRecords = rs.length) :
    (handlePacket lookup host
        (encodeHeader h ++ rs.flatMap encodeBinaryRecord)).map decodedRecord.bin = rs ∧
    (handlePacket lookup host
        (encodeHeader h ++ rs.flatMap encodeBinaryRecord)).length = rs.length := by
  have hp := parseHeader_encode h hw (rs.flatMap encodeBinaryRecord)
  have hmain : (handlePacket lookup host
      (encodeHeader h ++ rs.flatMap encodeBinaryRecord)).map decodedRecord.bin = rs := by
    unfold handlePacket
    simp only [hp]
    rw [hn, show rs.length = rs.length + 0 from rfl,
        show rs.flatMap encodeBinaryRecord = rs.flatMap encodeBinaryRecord ++ [] from
          (List.append_nil _).symm,
        recordLoop_encode lookup h host rs 0 [] hrs]
    show (List.map _ rs ++ []).map decodedRecord.bin = rs
    rw [List.append_nil, List.map_map,
        show (decodedRecord.bin ∘ fun r => decodeRecord lookup h r host) = id from
          funext fun r => decodeRecord_bin lookup h r host,
        List.map_id]
  refine ⟨hmain, ?_⟩
  have := congrArg List.length hmain
  simpa using this

theorem c3_roundtrip_witness :
    (handlePacket (fun s => s) "h"
        (encodeHeader samplingHeader ++
          [wrapSampleRecord].flatMap encodeBinaryRecord)).map decodedRecord.bin =
      [wrapSampleRecord] :=
  (c3_roundtrip (fun s => s) "h" samplingHeader [wrapSampleRecord] (by decide)
    (by decide) (by decide)).1

/-- C3 counterexample: the wire header is 24 bytes, not 20.  Encoding a
header into 20 bytes (the first 20 of its layout) followed by one complete
48-byte record and decoding does not return that record: the header read
absorbs 4 record bytes and the remaining 44 bytes are a truncated record,
so zero records are emitted although the header declares one. -/
theorem c3_twenty_byte_header_counterexample :
    (encodeHeader samplingHeader).length = 24 ∧
    ¬((encodeHeader samplingHeader).length = 20) ∧
    samplingHeader.FlowRecords = 1 ∧
    handlePacket (fun s => s) "h"
      ((encodeHeader samplingHeader).take 20 ++ encodeBinaryRecord wrapSampleRecord) = [] := by
  refine ⟨by decide, by decide, by decide, by decide⟩

/-- A header declaring two flow records (for the truncation scenario). -/
def truncHeader : header := { samplingHeader with FlowRecords := 2 }

/-- C4: a datagram declaring more records than its payload holds yields
exactly the complete records, in wire order: with k well-formed records
encoded after the header, k < FlowRecords, and fewer than 48 trailing
bytes, decoding emits exactly those k records and discards the rest. -/
theorem c4_truncated_datagram (lookup : String → String) (host : String) (h : header)
    (rs : List binaryRecord) (tail : List Nat) (hw : h.wf) (hrs : ∀ r ∈ rs, r.wf)
    (hk : rs.length < h.FlowRecords) (htail : tail.length < 48) :
    (handlePacket lookup host
        (encodeHeader h ++ (rs.flatMap encodeBinaryRecord ++ tail))).map decodedRecord.bin = rs ∧
    (handlePacket lookup host
        (encodeHeader h ++ (rs.flatMap encodeBinaryRecord ++ tail))).length = rs.length := by
  have hp := parseHeader_encode h hw (rs.flatMap encodeBinaryRecord ++ tail)
  obtain ⟨m, hm⟩ : ∃ m, h.FlowRecords = rs.length + (m + 1) :=
    ⟨h.FlowRecords - rs.length - 1, by omega⟩
  have hstop : recordLoop lookup h host (m + 1) tail = [] := by
    unfold recordLoop
    simp only [parseBinaryRecord_short tail htail]
  have hmain : (handlePacket lookup host
      (encodeHeader h ++ (rs.flatMap encodeBinaryRecord ++ tail))).map decodedRecord.bin = rs := by
    unfold handlePacket
    simp only [hp]
    rw [hm, recordLoop_encode lookup h host rs (m + 1) tail hrs, hstop]
    rw [List.append_nil, List.map_map,
        show (decodedRecord.bin ∘ fun r => decodeRecord lookup h r host) = id from
          funext fun r => decodeRecord_bin lookup h r host,
        List.map_id]
  refine ⟨hmain, ?_⟩
  have := congrArg List.length hmain
  simpa using this

theorem c4_truncated_datagram_witness :
    (handlePacket (fun s => s) "h"
        (encodeHeader truncHeader ++
          ([wrapSampleRecord].flatMap encodeBinaryRecord ++ []))).map decodedRecord.bin =
      [wrapSampleRecord] ∧
    (handlePacket (fun s => s) "h"
        (encodeHeader truncHeader ++
          ([wrapSampleRecord].flatMap encodeBinaryRecord ++ []))).length = 1 :=
  c4_truncated_datagram (fun s => s) "h" truncHeader [wrapSampleRecord] [] (by decide)
    (by decide) (by decide) (by decide)

/-- C8: decoding never rejects a datagram based on the header's version
field.  Replacing the first two bytes of any datagram (the big-endian
version field) with any other values leaves the emitted flow records — the
embedded raw-record fields and their number — unchanged. -/
theorem c8_version_not_validated (lookup : String → String) (host : String)
    (x y x' y' : Nat) (rest : List Nat) :
    (handlePacket lookup host (x :: y :: rest)).map decodedRecord.bin =
      (handlePacket lookup host (x' :: y' :: rest)).map decodedRecord.bin ∧
    (handlePacket lookup host (x :: y :: rest)).length =
      (handlePacket lookup host (x' :: y' :: rest)).length := by
  have hmain : (handlePacket lookup host (x :: y :: rest)).map decodedRecord.bin =
      (handlePacket lookup host (x' :: y' :: rest)).map decodedRecord.bin := by
    unfold handlePacket
    rw [parseHeader_version x y x' y' rest]
    cases hp : parseHeader (x' :: y' :: rest) with
    | none => rfl
    | some p =>
      obtain ⟨h1, rest1⟩ := p
      simp only [Option.map_some]
      exact recordLoop_map_bin lookup { h1 with Version := beU16 x y } h1 host
        h1.FlowRecords rest1
  refine ⟨hmain, ?_⟩
  have := congrArg List.length hmain
  simpa using this

/-- The line-protocol template as the specification documents it
(`netflow,host=<host>,srcAddr=<ip>,dstAddr=<ip>,srcHostName=<name>,
dstHostName=<name>,protocol=<n>,srcPort=<n>,dstPort=<n>,input=<n>,
output=<n> inBytes=<n>,inPackets=<n>,duration=<n> <timestamp_ns>`):
measurement name, the ten tags, a space, the three fields, a space and the
unsigned 64-bit nanosecond timestamp.  Written from the spec's template for
comparison with `formatLineProtocol`. -/
def specLineProtocol (r : decodedRecord) : String :=
  "netflow" ++
  ",host=" ++ r.Host ++
  ",srcAddr=" ++ r.Ipv4SrcAddr ++
  ",dstAddr=" ++ r.Ipv4DstAddr ++
  ",srcHostName=" ++ r.SrcHostName ++
  ",dstHostName=" ++ r.DstHostName ++
  ",protocol=" ++ toString r.bin.Protocol ++
  ",srcPort=" ++ toString r.bin.L4SrcPort ++
  ",dstPort=" ++ toString r.bin.L4DstPort ++
  ",input=" ++ toString r.bin.InputSnmp ++
  ",output=" ++ toString r.bin.OutputSnmp ++
  " inBytes=" ++ toString r.bin.InBytes ++
  ",inPackets=" ++ toString r.bin.InPkts ++
  ",duration=" ++ toString r.Duration ++
  " " ++ toString ((r.hdr.UnixSec * 1000000000 + r.hdr.UnixNsec) % 18446744073709551616)

/-- C7: the UDP sink renders exactly the documented line-protocol text —
the ten tags and three fields taken from the record's fields — with the
trailing timestamp unixSec * 10^9 + unixNsec in unsigned 64-bit
arithmetic; when both header times fit uint32 (as every parsed header's
do), the multiplication cannot overflow, so the modulo is the identity. -/
theorem c7_line_protocol (r : decodedRecord) :
    formatLineProtocol r = specLineProtocol r ∧
    (r.hdr.UnixSec < 4294967296 → r.hdr.UnixNsec < 4294967296 →
      r.hdr.UnixSec * 1000000000 + r.hdr.UnixNsec < 18446744073709551616 ∧
      (r.hdr.UnixSec * 1000000000 + r.hdr.UnixNsec) % 18446744073709551616 =
        r.hdr.UnixSec * 1000000000 + r.hdr.UnixNsec) := by
  constructor
  · simp [formatLineProtocol, specLineProtocol]
  · intro h1 h2
    constructor
    · omega
    · apply Nat.mod_eq_of_lt
      omega

/-- A concrete decoded record, used to instantiate `c7_line_protocol`. -/
def sampleDecoded : decodedRecord :=
  decodeRecord (fun s => s) samplingHeader wrapSampleRecord "10.9.9.9"

theorem c7_line_protocol_witness :
    formatLineProtocol sampleDecoded = specLineProtocol sampleDecoded ∧
    (sampleDecoded.hdr.UnixSec * 1000000000 + sampleDecoded.hdr.UnixNsec) %
        18446744073709551616 =
      sampleDecoded.hdr.UnixSec * 1000000000 + sampleDecoded.hdr.UnixNsec :=
  ⟨(c7_line_protocol sampleDecoded).1,
    ((c7_line_protocol sampleDecoded).2 (by decide) (by decide)).2⟩

/-- C5 (as amended: the fast path also applies when the expiry equals the
current instant, i.e. whenever the entry has not yet expired): `get(ip)`
returns the cached hostname with no external resolution when a non-zero
cache entry exists whose expiry is at or after now; otherwise it performs
exactly one external resolution, takes the first resolved name on success
and ip itself on failure, and writes that hostname back with expiry
now + 24 hours, overwriting any previous entry. -/
theorem c5_cache_get (resolve : String → Option (List String)) (now : Nat)
    (cache : String → Option cacheRecord) (ip : String) :
    (∀ e : cacheRecord, cache ip = some e → e ≠ { Hostname := "", timeout := 0 } →
      now ≤ e.timeout →
      lookUpWithCache resolve now cache ip = some (e.Hostname, cache, false)) ∧
    (∀ (hd : String) (tl : List String),
      ((cache ip).getD { Hostname := "", timeout := 0 } = { Hostname := "", timeout := 0 } ∨
        now > ((cache ip).getD { Hostname := "", timeout := 0 }).timeout) →
      resolve ip = some (hd :: tl) →
      lookUpWithCache resolve now cache ip =
        some (hd, cacheInsert cache ip { Hostname := hd, timeout := now + nsPerDay }, true)) ∧
    (((cache ip).getD { Hostname := "", timeout := 0 } = { Hostname := "", timeout := 0 } ∨
        now > ((cache ip).getD { Hostname := "", timeout := 0 }).timeout) →
      resolve ip = none →
      lookUpWithCache resolve now cache ip =
        some (ip, cacheInsert cache ip { Hostname := ip, timeout := now + nsPerDay }, true)) := by
  refine ⟨?_, ?_, ?_⟩
  · intro e he hne hfresh
    unfold lookUpWithCache
    rw [he]
    simp only [Option.getD_some]
    rw [if_neg]
    intro hc
    rcases hc with hc | hc
    · exact hne hc
    · omega
  · intro hd tl hmiss hres
    unfold lookUpWithCache
    rw [if_pos hmiss, hres]
  · intro hmiss hres
    unfold lookUpWithCache
    rw [if_pos hmiss, hres]

/-- A cache holding a fresh entry for 1.2.3.4 (expiry 10). -/
def freshCache : String → Option cacheRecord :=
  cacheInsert (fun _ => none) "1.2.3.4" { Hostname := "cached", timeout := 10 }

theorem c5_cache_get_witness :
    lookUpWithCache (fun _ => some ["resolved"]) 5 freshCache "1.2.3.4" =
      some ("cached", freshCache, false) := by
  have hc : freshCache "1.2.3.4" = some { Hostname := "cached", timeout := 10 } := by
    unfold freshCache cacheInsert
    rw [if_pos rfl]
  exact (c5_cache_get (fun _ => some ["resolved"]) 5 freshCache "1.2.3.4").1
    { Hostname := "cached", timeout := 10 } hc (by decide) (by decide)

/-- A cache whose entry for 1.2.3.4 expires exactly at instant 5. -/
def boundaryCache : String → Option cacheRecord :=
  cacheInsert (fun _ => none) "1.2.3.4" { Hostname := "h", timeout := 5 }

/-- C5 counterexample: at now = 5 the entry's expiry (5) is not in the
future, so the claim requires one external resolution and a cache write;
the code instead takes the fast path (`time.Now().After` is strict):
it returns the cached hostname, resolves nothing (the Boolean is false)
and leaves the cache unchanged. -/
theorem c5_expiry_boundary_counterexample :
    ¬(5 < 5) ∧
    lookUpWithCache (fun _ => some ["resolved"]) 5 boundaryCache "1.2.3.4" =
      some ("h", boundaryCache, false) := by
  refine ⟨by decide, ?_⟩
  have hc : boundaryCache "1.2.3.4" = some { Hostname := "h", timeout := 5 } := by
    unfold boundaryCache cacheInsert
    rw [if_pos rfl]
  unfold lookUpWithCache
  rw [hc]
  simp only [Option.getD_some]
  rw [if_neg]
  decide

/-- C10: on the slow path the first element of the resolver's result list
is taken without a guard — a successful resolution returning an empty name
list makes `hostTemp[0]` index out of range (modelled as `none`); when
every successful resolution for ip returns a non-empty list, `get` is
total. -/
theorem c10_empty_resolution_unguarded :
    lookUpWithCache (fun _ => some []) 1 (fun _ => none) "10.0.0.1" = none ∧
    (∀ (resolve : String → Option (List String)) (now : Nat)
        (cache : String → Option cacheRecord) (ip : String),
      (∀ l : List String, resolve ip = some l → l ≠ []) →
      (lookUpWithCache resolve now cache ip).isSome = true) := by
  constructor
  · rfl
  · intro resolve now cache ip hne
    simp only [lookUpWithCache]
    by_cases hc : ((cache ip).getD { Hostname := "", timeout := 0 } =
        { Hostname := "", timeout := 0 } ∨
        now > ((cache ip).getD { Hostname := "", timeout := 0 }).timeout)
    · rw [if_pos hc]
      cases hres : resolve ip with
      | none => rfl
      | some l =>
        cases l with
        | nil => exact absurd rfl (hne [] hres)
        | cons hd tl => rfl
    · rw [if_neg hc]
      rfl

theorem c10_empty_resolution_unguarded_witness :
    (lookUpWithCache (fun _ => some ["name"]) 1 (fun _ => none) "10.0.0.1").isSome = true :=
  c10_empty_resolution_unguarded.2 (fun _ => some ["name"]) 1 (fun _ => none) "10.0.0.1"
    (by
      intro l hl
      injection hl with h
      subst h
      decide)
